import Mathlib

/-!
# Verification of the asset-acquisition core of the switch-appstore client

Shallow embedding of the two core components of the repository:

* `ImageCache` (src/source/network/ImageCache.cpp): an asynchronous,
  disk-backed, memory-bounded image cache with LRU eviction.
* `Downloader` (src/source/network/Downloader.cpp): a bounded-concurrency
  download queue with pause/resume/cancel.

The external collaborators (SDL texture decoding, the HTTP transport, the
file system) are modelled as explicit environment inputs: a decode result is
an optional `(handle, width, height)` triple, a fetch result is a flag for
"returned non-empty data", disk presence is a flag, and file deletions are
reported as a list of deleted paths.  The `unordered_map` of cache entries is
modelled as an association list whose order is the iteration order (chosen to
be insertion order); timestamps are naturals supplied by the caller.
-/

/-! ## ImageCache: data model (ImageCache.hpp) -/

/-- `ImageLoadState` from ImageCache.hpp. -/
inductive ImageLoadState where
  | Idle
  | Loading
  | Loaded
  | Failed
deriving DecidableEq, Repr

/-- `CacheEntry` from ImageCache.hpp: the SDL texture is an abstract
nullable handle (`Option Nat`). -/
structure CacheEntry where
  texture : Option Nat := none
  size : Nat := 0
  lastAccess : Nat := 0
  insertTime : Nat := 0
  state : ImageLoadState := .Idle
deriving DecidableEq, Repr

/-- The mutable state of `ImageCache`.  `cacheEntries` models
`m_cacheEntries` (association list in iteration order), `loadQueue` models
`m_loadQueue`, `loadingUrls` models the key set of `m_loadingUrls`, and
`httpClient` records whether `m_httpClient` is non-null. -/
structure ImageCacheState where
  cacheEntries : List (String × CacheEntry)
  currentCacheSize : Nat
  maxMemoryCacheSize : Nat
  loadQueue : List String
  loadingUrls : List String
  httpClient : Bool
deriving DecidableEq, Repr

/-- A fresh cache after `init` with `setMaxMemoryCacheSize maxBytes`. -/
def imgInit (maxBytes : Nat) : ImageCacheState :=
  { cacheEntries := []
    currentCacheSize := 0
    maxMemoryCacheSize := maxBytes
    loadQueue := []
    loadingUrls := []
    httpClient := true }

/-- `m_cacheEntries.find(url)` on the association list. -/
def lookupEntry : List (String × CacheEntry) → String → Option CacheEntry
  | [], _ => none
  | p :: rest, url => if p.1 = url then some p.2 else lookupEntry rest url

/-- `m_cacheEntries[url] = entry`: replace the existing mapping, otherwise
insert (at the end of the iteration order). -/
def insertEntry : List (String × CacheEntry) → String → CacheEntry → List (String × CacheEntry)
  | [], url, e => [(url, e)]
  | p :: rest, url, e =>
    if p.1 = url then (url, e) :: rest else p :: insertEntry rest url e

/-- `it->second.lastAccess = now` on the entry found for `url`. -/
def touchEntry (now : Nat) : List (String × CacheEntry) → String → List (String × CacheEntry)
  | [], _ => []
  | p :: rest, url =>
    if p.1 = url then (p.1, { p.2 with lastAccess := now }) :: rest
    else p :: touchEntry now rest url

/-- ImageCache.cpp lines 148-150 / 160-162 / 206-208:
`if (m_cacheEntries.find(url) != m_cacheEntries.end()) m_cacheEntries[url].state = Failed;`
Only an existing entry is marked; no entry is created. -/
def markFailed : List (String × CacheEntry) → String → List (String × CacheEntry)
  | [], _ => []
  | p :: rest, url =>
    if p.1 = url then (p.1, { p.2 with state := .Failed }) :: rest
    else p :: markFailed rest url

/-- `m_loadingUrls.erase(url)`. -/
def eraseUrl : List String → String → List String
  | [], _ => []
  | x :: xs, u => if x = u then xs else x :: eraseUrl xs u

/-! ## ImageCache: operations (ImageCache.cpp) -/

/-- `ImageCache::getCached` (lines 56-69): on a hit (entry present with a
non-null texture) update `lastAccess` and return the texture. -/
def getCached (now : Nat) (url : String) (s : ImageCacheState) :
    ImageCacheState × Option Nat :=
  match lookupEntry s.cacheEntries url with
  | some e =>
    match e.texture with
    | some tex => ({ s with cacheEntries := touchEntry now s.cacheEntries url }, some tex)
    | none => (s, none)
  | none => (s, none)

/-- The first guard of `ImageCache::requestImage` (lines 73-77):
the entry exists and is `Loaded`. -/
def entryIsLoaded (entries : List (String × CacheEntry)) (url : String) : Bool :=
  match lookupEntry entries url with
  | some e => if e.state = .Loaded then true else false
  | none => false

/-- `ImageCache::requestImage` (lines 71-102).  Returns the new state and
the state-change callback firings `(url, newState)`. -/
def requestImage (now : Nat) (url : String) (s : ImageCacheState) :
    ImageCacheState × List (String × ImageLoadState) :=
  if entryIsLoaded s.cacheEntries url then (s, [])
  else if url ∈ s.loadingUrls then (s, [])
  else
    let entry : CacheEntry :=
      { texture := none, size := 0, lastAccess := now, insertTime := now, state := .Loading }
    ({ s with
        cacheEntries := insertEntry s.cacheEntries url entry
        loadQueue := s.loadQueue ++ [url]
        loadingUrls := url :: s.loadingUrls },
     [(url, .Loading)])

/-! ### Eviction (ImageCache.cpp lines 290-322) -/

/-- The scan of `evictIfNeeded` (lines 298-306): starting from the current
candidate `best` (initialised at `m_cacheEntries.begin()`, Loading or not),
walk the entries, skip the ones in `Loading` state, and keep the entry with
the strictly smallest `lastAccess`. -/
def scanOldest : (String × CacheEntry) → List (String × CacheEntry) → (String × CacheEntry)
  | best, [] => best
  | best, e :: rest =>
    if e.2.state = .Loading then scanOldest best rest
    else if e.2.lastAccess < best.2.lastAccess then scanOldest e rest
    else scanOldest best rest

/-- `m_cacheEntries.erase(oldest)`: remove the (unique) entry with the
selected key. -/
def eraseKey : List (String × CacheEntry) → String → List (String × CacheEntry)
  | [], _ => []
  | p :: rest, k => if p.1 = k then rest else p :: eraseKey rest k

/-- The `while` loop of `ImageCache::evictIfNeeded`, fuelled by the number
of entries (each pass that does not stop erases exactly one entry).
Mirrors lines 296-321: while over budget and non-empty, scan for the oldest
entry starting the scan at `begin()`; if the selected entry is `Loading`,
stop; otherwise free it, subtract its size and erase it. -/
def evictGo (maxS : Nat) : Nat → Nat → List (String × CacheEntry) → Nat × List (String × CacheEntry)
  | 0, size, entries => (size, entries)
  | fuel + 1, size, entries =>
    if maxS < size then
      match entries with
      | [] => (size, [])
      | h :: t =>
        let oldest := scanOldest h (h :: t)
        if oldest.2.state = .Loading then (size, h :: t)
        else evictGo maxS fuel (size - oldest.2.size) (eraseKey (h :: t) oldest.1)
    else (size, entries)

/-- `ImageCache::evictIfNeeded` (lines 290-322). -/
def evictIfNeeded (s : ImageCacheState) : ImageCacheState :=
  let r := evictGo s.maxMemoryCacheSize s.cacheEntries.length s.currentCacheSize s.cacheEntries
  { s with currentCacheSize := r.1, cacheEntries := r.2 }

/-! ### Synchronous loading (ImageCache.cpp lines 104-215) -/

/-- The environment of one `loadSync` call: what the file system, the
transport and the SDL decoder answer.  `diskHit` is `stat(cachePath) == 0`,
`diskTex` the result of `loadFromFile`, `dataNonEmpty` whether
`downloadData(url)` returned non-empty bytes, `netTex` the result of
`loadFromMemory`; decode results carry `(handle, width, height)`. -/
structure LoadEnv where
  diskHit : Bool
  diskTex : Option (Nat × Nat × Nat)
  dataNonEmpty : Bool
  netTex : Option (Nat × Nat × Nat)
deriving DecidableEq, Repr

/-- The `Loaded` entry built at ImageCache.cpp lines 119-131 / 182-193:
texture handle, `size = w * h * 4`, both timestamps `now`. -/
def mkLoadedEntry (now tex w h : Nat) : CacheEntry :=
  { texture := some tex, size := w * h * 4, lastAccess := now, insertTime := now,
    state := .Loaded }

/-- Insertion of a freshly decoded entry followed by `evictIfNeeded`
(lines 132-140 and 195-203). -/
def insertLoaded (now : Nat) (url : String) (tex w h : Nat) (s : ImageCacheState) :
    ImageCacheState :=
  let entry := mkLoadedEntry now tex w h
  evictIfNeeded
    { s with
        cacheEntries := insertEntry s.cacheEntries url entry
        currentCacheSize := s.currentCacheSize + entry.size }

/-- The network tail of `ImageCache::loadSync` (lines 145-215): missing
client, empty fetch and failed decode mark an existing entry `Failed` and
return nothing; a successful decode inserts a `Loaded` entry and evicts. -/
def loadSyncNet (now : Nat) (url : String) (env : LoadEnv) (s : ImageCacheState) :
    ImageCacheState × List (String × ImageLoadState) × Option Nat :=
  if s.httpClient = false then
    ({ s with cacheEntries := markFailed s.cacheEntries url }, [(url, .Failed)], none)
  else if env.dataNonEmpty = false then
    ({ s with cacheEntries := markFailed s.cacheEntries url }, [(url, .Failed)], none)
  else
    match env.netTex with
    | some (tex, w, h) => (insertLoaded now url tex w h s, [(url, .Loaded)], some tex)
    | none =>
      ({ s with cacheEntries := markFailed s.cacheEntries url }, [(url, .Failed)], none)

/-- `ImageCache::loadSync` (lines 104-215): memory cache, then disk cache,
then network.  Returns the new state, the callback firings and the returned
texture handle. -/
def loadSync (now : Nat) (url : String) (env : LoadEnv) (s : ImageCacheState) :
    ImageCacheState × List (String × ImageLoadState) × Option Nat :=
  match getCached now url s with
  | (s0, some tex) => (s0, [], some tex)
  | (s0, none) =>
    if env.diskHit then
      match env.diskTex with
      | some (tex, w, h) => (insertLoaded now url tex w h s0, [(url, .Loaded)], some tex)
      | none => loadSyncNet now url env s0
    else loadSyncNet now url env s0

/-- `ImageCache::processOne` (lines 248-257): pop one queued URL, drop it
from the pending-load set, `loadSync` it. -/
def processOne (now : Nat) (env : LoadEnv) (s : ImageCacheState) :
    ImageCacheState × List (String × ImageLoadState) × Option Nat :=
  match s.loadQueue with
  | [] => (s, [], none)
  | url :: rest =>
    loadSync now url env
      { s with loadQueue := rest, loadingUrls := eraseUrl s.loadingUrls url }

/-- `ImageCache::clearMemoryCache` (lines 263-271). -/
def clearMemoryCache (s : ImageCacheState) : ImageCacheState :=
  { s with cacheEntries := [], currentCacheSize := 0 }

/-- `ImageCache::getLoadState` (lines 282-288). -/
def getLoadState (s : ImageCacheState) (url : String) : ImageLoadState :=
  match lookupEntry s.cacheEntries url with
  | some e => e.state
  | none => .Idle

/-- One public cache operation, for claims quantifying over all operations. -/
inductive CacheOp where
  | getCachedOp (now : Nat) (url : String)
  | requestImageOp (now : Nat) (url : String)
  | loadSyncOp (now : Nat) (url : String) (env : LoadEnv)
  | processOneOp (now : Nat) (env : LoadEnv)
  | clearOp
  | evictOp

/-- Apply one cache operation (dropping returned values and callbacks). -/
def applyCacheOp (s : ImageCacheState) : CacheOp → ImageCacheState
  | .getCachedOp now url => (getCached now url s).1
  | .requestImageOp now url => (requestImage now url s).1
  | .loadSyncOp now url env => (loadSync now url env s).1
  | .processOneOp now env => (processOne now env s).1
  | .clearOp => clearMemoryCache s
  | .evictOp => evictIfNeeded s

/-! ## Downloader: data model (Downloader.hpp) -/

/-- `DownloadStatus` from Downloader.hpp. -/
inductive DownloadStatus where
  | Queued
  | Downloading
  | Paused
  | Completed
  | Failed
  | Cancelled
deriving DecidableEq, Repr

/-- `DownloadItem` from Downloader.hpp (the byte counters are naturals). -/
structure DownloadItem where
  id : String
  name : String
  url : String
  outputPath : String
  status : DownloadStatus := .Queued
  totalBytes : Nat := 0
  downloadedBytes : Nat := 0
  error : String := ""
deriving DecidableEq, Repr

/-- The mutable state of `Downloader`: the task list `m_downloads`,
`m_maxConcurrent`, `m_currentDownloads`, `m_nextId` and
`m_cancelRequested`. -/
structure DownloaderState where
  downloadDir : String
  downloads : List DownloadItem
  maxConcurrent : Int
  currentDownloads : Int
  nextId : Nat
  cancelRequested : Bool
deriving DecidableEq, Repr

/-- A fresh queue after `init downloadDir` (defaults from Downloader.hpp). -/
def dlInit (downloadDir : String) : DownloaderState :=
  { downloadDir := downloadDir
    downloads := []
    maxConcurrent := 1
    currentDownloads := 0
    nextId := 1
    cancelRequested := false }

/-- `Downloader::generateId` (lines 260-264): `"dl_%d"` of `m_nextId`. -/
def generateId (n : Nat) : String := "dl_" ++ toString n

/-- What the environment does during one blocking
`m_httpClient->downloadFile` call (Downloader.cpp lines 199-212): `ok` is
the boolean the transport returns, `dl`/`tot` are the values of the last
progress callback.  `midPause` is a `pause(id)` of the active task issued
from inside a progress callback, `midCancel` likewise a
`removeDownload(id)` of the active task; both set `m_cancelRequested`. -/
inductive TransferOutcome where
  | finished (ok : Bool) (dl tot : Nat)
  | midPause (ok : Bool) (dl tot : Nat)
  | midCancel (ok : Bool) (dl tot : Nat)
deriving DecidableEq, Repr

/-- The transport's returned boolean. -/
def outcomeOk : TransferOutcome → Bool
  | .finished ok _ _ => ok
  | .midPause ok _ _ => ok
  | .midCancel ok _ _ => ok

/-- The last progress-callback values. -/
def outcomeBytes : TransferOutcome → Nat × Nat
  | .finished _ dl tot => (dl, tot)
  | .midPause _ dl tot => (dl, tot)
  | .midCancel _ dl tot => (dl, tot)

/-- Value of `m_cancelRequested` when `downloadFile` returns (it was reset
to `false` at line 196 and is set only by a mid-transfer pause/cancel). -/
def outcomeCancelFlag : TransferOutcome → Bool
  | .finished _ _ _ => false
  | .midPause _ _ _ => true
  | .midCancel _ _ _ => true

/-! ## Downloader: queue management (Downloader.cpp) -/

/-- `Downloader::addDownload` (lines 63-81). -/
def addDownload (s : DownloaderState) (name url filename : String) :
    DownloaderState × String :=
  let id := generateId s.nextId
  let outFile := if filename = "" then id ++ ".nro" else filename
  let item : DownloadItem :=
    { id := id, name := name, url := url
      outputPath := s.downloadDir ++ "/" ++ outFile
      status := .Queued, totalBytes := 0, downloadedBytes := 0, error := "" }
  ({ s with downloads := s.downloads ++ [item], nextId := s.nextId + 1 }, id)

/-- The loop of `Downloader::removeDownload` (lines 84-96): mark the first
task with this id `Cancelled`; report whether it was `Downloading` (in which
case the caller sets `m_cancelRequested`). -/
def cancelById : List DownloadItem → String → List DownloadItem × Bool
  | [], _ => ([], false)
  | x :: xs, id =>
    if x.id = id then
      ({ x with status := .Cancelled } :: xs,
       if x.status = .Downloading then true else false)
    else
      let r := cancelById xs id
      (x :: r.1, r.2)

/-- `Downloader::removeDownload` (lines 83-97). -/
def removeDownload (s : DownloaderState) (id : String) : DownloaderState :=
  let r := cancelById s.downloads id
  { s with downloads := r.1, cancelRequested := s.cancelRequested || r.2 }

/-- `Downloader::clearCompleted` (lines 99-109). -/
def clearCompletedD (s : DownloaderState) : DownloaderState :=
  { s with
      downloads := s.downloads.filter
        (fun it => !(it.status = .Completed || it.status = .Cancelled)) }

/-- `Downloader::getDownload` (lines 111-118): first task with this id. -/
def getDownload : List DownloadItem → String → Option DownloadItem
  | [], _ => none
  | x :: xs, id => if x.id = id then some x else getDownload xs id

/-- Write `status` through the pointer returned by `getDownload`: update the
first task with this id. -/
def setStatusById : List DownloadItem → String → DownloadStatus → List DownloadItem
  | [], _, _ => []
  | x :: xs, id, st =>
    if x.id = id then { x with status := st } :: xs
    else x :: setStatusById xs id st

/-- `Downloader::pause` (lines 124-130). -/
def pauseD (s : DownloaderState) (id : String) : DownloaderState :=
  match getDownload s.downloads id with
  | some it =>
    if it.status = .Downloading then
      { s with
          downloads := setStatusById s.downloads id .Paused
          cancelRequested := true }
    else s
  | none => s

/-- `Downloader::resume` (lines 132-137). -/
def resumeD (s : DownloaderState) (id : String) : DownloaderState :=
  match getDownload s.downloads id with
  | some it =>
    if it.status = .Paused then
      { s with downloads := setStatusById s.downloads id .Queued }
    else s
  | none => s

/-- `Downloader::pauseAll` (lines 139-147). -/
def pauseAllD (s : DownloaderState) : DownloaderState :=
  { s with
      downloads := s.downloads.map
        (fun it =>
          if it.status = .Downloading || it.status = .Queued then
            { it with status := .Paused }
          else it)
      cancelRequested := true }

/-- `Downloader::resumeAll` (lines 149-155). -/
def resumeAllD (s : DownloaderState) : DownloaderState :=
  { s with
      downloads := s.downloads.map
        (fun it => if it.status = .Paused then { it with status := .Queued } else it) }

/-! ## Downloader: processing (Downloader.cpp lines 161-235) -/

/-- The sweep at the start of `Downloader::update` (lines 163-172): erase
every `Cancelled` task and `remove` the file at its output path.  Returns
the remaining tasks and the deleted paths. -/
def sweepCancelled : List DownloadItem → List DownloadItem × List String
  | [] => ([], [])
  | x :: xs =>
    let r := sweepCancelled xs
    if x.status = .Cancelled then (r.1, x.outputPath :: r.2)
    else (x :: r.1, r.2)

/-- The search loop of `startNextDownload` (lines 182-190): split the task
list around the first `Queued` task. -/
def splitFirstQueued : List DownloadItem → Option (List DownloadItem × DownloadItem × List DownloadItem)
  | [] => none
  | x :: xs =>
    if x.status = .Queued then some ([], x, xs)
    else
      match splitFirstQueued xs with
      | some (a, q, b) => some (x :: a, q, b)
      | none => none

/-- The fate of the started task across one blocking transfer
(Downloader.cpp lines 193-226): it is first marked `Downloading` with the
progress counters written by the progress lambda; a mid-transfer `pause`
leaves it `Paused`, a mid-transfer `removeDownload` leaves it `Cancelled`
(the post-transfer check at lines 215-219 keeps those), otherwise the
transport's boolean decides `Completed` (with `downloadedBytes =
totalBytes`) or `Failed` with the generic message. -/
def transferResult (q : DownloadItem) (o : TransferOutcome) : DownloadItem :=
  let b := outcomeBytes o
  let q1 := { q with status := DownloadStatus.Downloading,
                     downloadedBytes := b.1, totalBytes := b.2 }
  match o with
  | .midPause _ _ _ => { q1 with status := .Paused }
  | .midCancel _ _ _ => { q1 with status := .Cancelled }
  | .finished ok _ _ =>
    if ok then { q1 with status := .Completed, downloadedBytes := q1.totalBytes }
    else { q1 with status := .Failed, error := "Download failed" }

/-- `Downloader::startNextDownload` (lines 180-235).  Returns the new state
and the completion-callback firings `(taskId, success)`.  The counter is
incremented at line 195 and decremented at line 228; the transfer itself is
folded into `transferResult`. -/
def startNextDownload (s : DownloaderState) (o : TransferOutcome) :
    DownloaderState × List (String × Bool) :=
  match splitFirstQueued s.downloads with
  | none => (s, [])
  | some (pre, q, post) =>
    ({ s with
        downloads := pre ++ transferResult q o :: post
        currentDownloads := s.currentDownloads + 1 - 1
        cancelRequested := outcomeCancelFlag o },
     [(q.id, outcomeOk o)])

/-- `Downloader::update` (lines 161-178): sweep the `Cancelled` tasks, then
start the next download if below the concurrency cap.  Returns the new
state, the completion-callback firings and the deleted file paths. -/
def updateD (s : DownloaderState) (o : TransferOutcome) :
    DownloaderState × List (String × Bool) × List String :=
  let r := sweepCancelled s.downloads
  let s1 := { s with downloads := r.1 }
  if s1.currentDownloads < s1.maxConcurrent then
    let r2 := startNextDownload s1 o
    (r2.1, r2.2, r.2)
  else (s1, [], r.2)

/-! ### Runs of queue operations and their observable states -/

/-- One public queue operation. -/
inductive DlOp where
  | add (name url filename : String)
  | removeOp (id : String)
  | clearOp
  | pauseOp (id : String)
  | resumeOp (id : String)
  | pauseAllOp
  | resumeAllOp
  | tick (o : TransferOutcome)

/-- Apply one queue operation; collect completion events and deleted
paths. -/
def applyDlOp (s : DownloaderState) : DlOp → DownloaderState × List (String × Bool) × List String
  | .add name url filename => ((addDownload s name url filename).1, [], [])
  | .removeOp id => (removeDownload s id, [], [])
  | .clearOp => (clearCompletedD s, [], [])
  | .pauseOp id => (pauseD s id, [], [])
  | .resumeOp id => (resumeD s id, [], [])
  | .pauseAllOp => (pauseAllD s, [], [])
  | .resumeAllOp => (resumeAllD s, [], [])
  | .tick o => updateD s o

/-- Final state of a run. -/
def runD (s : DownloaderState) : List DlOp → DownloaderState
  | [] => s
  | op :: ops => runD (applyDlOp s op).1 ops

/-- All completion-callback firings of a run, in order. -/
def runEvents (s : DownloaderState) : List DlOp → List (String × Bool)
  | [] => []
  | op :: ops => (applyDlOp s op).2.1 ++ runEvents (applyDlOp s op).1 ops

/-- Number of tasks currently in a given status. -/
def countWithStatus (st : DownloadStatus) : List DownloadItem → Nat
  | [] => 0
  | x :: xs => (if x.status = st then 1 else 0) + countWithStatus st xs

/-- The states at which user callbacks can observe the task list during one
operation: for a `tick` that starts a transfer, the state seen by the
progress callbacks (the started task marked `Downloading`, the counter
incremented, lines 193-196), plus the post-operation state seen by the
completion callback and by the caller. -/
def opObservables (s : DownloaderState) : DlOp → List DownloaderState
  | .tick o =>
    let r := sweepCancelled s.downloads
    let s1 := { s with downloads := r.1 }
    if s1.currentDownloads < s1.maxConcurrent then
      match splitFirstQueued s1.downloads with
      | none => [s1]
      | some (pre, q, post) =>
        let sMid :=
          { s1 with
              downloads := pre ++ { q with status := DownloadStatus.Downloading } :: post
              currentDownloads := s1.currentDownloads + 1
              cancelRequested := false }
        [sMid, (updateD s o).1]
    else [s1]
  | op => [(applyDlOp s op).1]

/-- All observable states along a run. -/
def runObservables (s : DownloaderState) : List DlOp → List DownloaderState
  | [] => []
  | op :: ops => opObservables s op ++ runObservables (applyDlOp s op).1 ops

/-! ## Lemmas about the cache entry list -/

/-- Keys of the entry map are pairwise distinct (an `unordered_map` holds at
most one mapping per key). -/
def keysNodup (l : List (String × CacheEntry)) : Prop :=
  (l.map Prod.fst).Nodup

instance (l : List (String × CacheEntry)) : Decidable (keysNodup l) := by
  unfold keysNodup; infer_instance

theorem scanOldest_mem (best : String × CacheEntry) (l : List (String × CacheEntry)) :
    scanOldest best l = best ∨ scanOldest best l ∈ l := by
  induction l generalizing best with
  | nil => simp [scanOldest]
  | cons e rest ih =>
    simp only [scanOldest]
    split
    · rcases ih best with h | h
      · exact Or.inl h
      · exact Or.inr (List.mem_cons_of_mem _ h)
    · split
      · rcases ih e with h | h
        · refine Or.inr ?_
          rw [h]
          exact List.mem_cons_self _ _
        · exact Or.inr (List.mem_cons_of_mem _ h)
      · rcases ih best with h | h
        · exact Or.inl h
        · exact Or.inr (List.mem_cons_of_mem _ h)

theorem eraseKey_sublist (l : List (String × CacheEntry)) (k : String) :
    (eraseKey l k).Sublist l := by
  induction l with
  | nil => simp [eraseKey]
  | cons p rest ih =>
    simp only [eraseKey]
    split
    · exact List.sublist_cons_self p rest
    · exact ih.cons₂ p

theorem keysNodup_eraseKey {l : List (String × CacheEntry)} (k : String)
    (h : keysNodup l) : keysNodup (eraseKey l k) :=
  List.Nodup.sublist ((eraseKey_sublist l k).map Prod.fst) h

theorem mem_eraseKey_of_ne {l : List (String × CacheEntry)} {p : String × CacheEntry}
    (hm : p ∈ l) (k : String) (hne : p.1 ≠ k) : p ∈ eraseKey l k := by
  induction l with
  | nil => cases hm
  | cons q rest ih =>
    simp only [eraseKey]
    rcases List.mem_cons.mp hm with rfl | hm
    · rw [if_neg hne]
      exact List.mem_cons_self _ _
    · split
      · exact hm
      · exact List.mem_cons_of_mem _ (ih hm)

theorem keysNodup_eq_of_mem {l : List (String × CacheEntry)} (hk : keysNodup l)
    {k : String} {e1 e2 : CacheEntry} (h1 : (k, e1) ∈ l) (h2 : (k, e2) ∈ l) :
    e1 = e2 := by
  induction l with
  | nil => cases h1
  | cons p rest ih =>
    have hp : p.1 ∉ rest.map Prod.fst := (List.nodup_cons.mp hk).1
    have hrest : keysNodup rest := (List.nodup_cons.mp hk).2
    rcases List.mem_cons.mp h1 with ha | ha
    · rcases List.mem_cons.mp h2 with hb | hb
      · injection ha.trans hb.symm
      · subst ha
        have hp2 : k ∉ rest.map Prod.fst := hp
        have hm2 : k ∈ rest.map Prod.fst := List.mem_map_of_mem Prod.fst hb
        exact absurd hm2 hp2
    · rcases List.mem_cons.mp h2 with hb | hb
      · subst hb
        have hp2 : k ∉ rest.map Prod.fst := hp
        have hm2 : k ∈ rest.map Prod.fst := List.mem_map_of_mem Prod.fst ha
        exact absurd hm2 hp2
      · exact ih hrest ha hb

theorem evictGo_keeps_loading (maxS : Nat) (fuel : Nat) :
    ∀ (size : Nat) (entries : List (String × CacheEntry)), keysNodup entries →
    ∀ {k : String} {e : CacheEntry}, (k, e) ∈ entries → e.state = .Loading →
    (k, e) ∈ (evictGo maxS fuel size entries).2 := by
  induction fuel with
  | zero => intro size entries _ k e hm _; exact hm
  | succ n ih =>
    intro size entries hk k e hm hl
    simp only [evictGo]
    split
    · match entries, hm, hk with
      | h :: t, hm, hk =>
        simp only
        split
        · exact hm
        · rename_i hnotl
          have holdmem : scanOldest h (h :: t) ∈ h :: t := by
            rcases scanOldest_mem h (h :: t) with heq | hmem
            · rw [heq]; exact List.mem_cons_self _ _
            · exact hmem
          have hne : k ≠ (scanOldest h (h :: t)).1 := by
            intro hkeq
            have he2 : (k, e) ∈ h :: t := hm
            have he3 : ((scanOldest h (h :: t)).1, (scanOldest h (h :: t)).2) ∈ h :: t := by
              simpa using holdmem
            rw [← hkeq] at he3
            have := keysNodup_eq_of_mem hk he2 he3
            rw [this] at hl
            exact hnotl hl
          exact ih _ _ (keysNodup_eraseKey _ hk) (mem_eraseKey_of_ne hm _ hne) hl
    · exact hm

theorem evictGo_sublist (maxS : Nat) (fuel : Nat) :
    ∀ (size : Nat) (entries : List (String × CacheEntry)),
    ((evictGo maxS fuel size entries).2).Sublist entries := by
  induction fuel with
  | zero => intro size entries; exact List.Sublist.refl _
  | succ n ih =>
    intro size entries
    simp only [evictGo]
    split
    · match entries with
      | [] => simp
      | h :: t =>
        simp only
        split
        · exact List.Sublist.refl _
        · exact (ih _ _).trans (eraseKey_sublist _ _)
    · exact List.Sublist.refl _

/-! ## Claims C1, C2: eviction -/

/-- The `loadSync` environment used to reach the C1 failing state: no disk
hit, non-empty fetch, the decoder yields texture handle 7 of 20 x 15 pixels
(1200 bytes as RGBA). -/
def c1env : LoadEnv :=
  { diskHit := false, diskTex := none, dataNonEmpty := true, netTex := some (7, 20, 15) }

/-- The C1 failing state, reached through the public interface: cap the
cache at 1000 bytes, `requestImage "a"` at time 0 (a `Loading` entry first
in iteration order), then `loadSync "b"` at time 1 decoding a 1200-byte
image, which inserts the entry and runs `evictIfNeeded`. -/
def c1state : ImageCacheState :=
  (loadSync 1 "b" c1env (requestImage 0 "a" (imgInit 1000)).1).1

/-- C1: the claimed eviction post-condition fails on the code.  In
`c1state` eviction has just run (inside `loadSync`), yet the cache is over
budget (1200 > 1000) while a non-`Loading` entry (`"b"`, `Loaded`) remains,
and running `evictIfNeeded` again removes nothing: the scan initialises its
candidate at the first iterated entry even when that entry is `Loading`
(ImageCache.cpp line 298), so the loop stops at line 309 although an
evictable entry exists. -/
theorem c1_eviction_stops_early :
    ¬ (c1state.currentCacheSize ≤ c1state.maxMemoryCacheSize ∨
        ∀ p ∈ c1state.cacheEntries, p.2.state = ImageLoadState.Loading) ∧
    evictIfNeeded c1state = c1state ∧
    c1state.cacheEntries.map (fun p => (p.1, p.2.state)) =
      [("a", ImageLoadState.Loading), ("b", ImageLoadState.Loaded)] ∧
    c1state.currentCacheSize = 1200 ∧ c1state.maxMemoryCacheSize = 1000 := by
  decide

/-- C2: eviction never removes an entry whose state is `Loading` (nor
releases its resource): any such entry survives `evictIfNeeded`
unchanged. -/
theorem c2_eviction_never_removes_loading (s : ImageCacheState)
    (hk : keysNodup s.cacheEntries) (k : String) (e : CacheEntry)
    (hm : (k, e) ∈ s.cacheEntries) (hl : e.state = ImageLoadState.Loading) :
    (k, e) ∈ (evictIfNeeded s).cacheEntries :=
  evictGo_keeps_loading s.maxMemoryCacheSize s.cacheEntries.length
    s.currentCacheSize s.cacheEntries hk hm hl

/-- The state used to witness C2: one `Loading` entry and one over-budget
`Loaded` entry. -/
def c2state : ImageCacheState :=
  (loadSync 1 "b" c1env (requestImage 0 "zz" (imgInit 1000)).1).1

/-- The `Loading` entry of `c2state`. -/
def c2entry : CacheEntry :=
  { texture := none, size := 0, lastAccess := 0, insertTime := 0,
    state := ImageLoadState.Loading }

theorem c2_witness :
    ("zz", c2entry) ∈ (evictIfNeeded c2state).cacheEntries :=
  c2_eviction_never_removes_loading c2state (by decide) "zz" c2entry
    (by decide) (by decide)

/-! ## Claim C3: requestImage idempotence -/

theorem lookupEntry_insertEntry_self (l : List (String × CacheEntry))
    (url : String) (e : CacheEntry) :
    lookupEntry (insertEntry l url e) url = some e := by
  induction l with
  | nil => simp [insertEntry, lookupEntry]
  | cons p rest ih =>
    simp only [insertEntry]
    split
    · simp [lookupEntry]
    · rename_i hne
      simp only [lookupEntry]
      rw [if_neg hne]
      exact ih

/-- C3: `requestImage` is idempotent.  (1) It is a no-op — no entry
mutation, no queue append, no callback — when the key already has a
`Loaded` entry or is in the pending-load set; (2) a second call right after
a first one is always a no-op; (3) two back-to-back calls from a state not
yet pending and not `Loaded` append the key to the load queue exactly
once. -/
theorem c3_requestImage_idempotent :
    (∀ (now : Nat) (url : String) (s : ImageCacheState),
        entryIsLoaded s.cacheEntries url = true ∨ url ∈ s.loadingUrls →
        requestImage now url s = (s, [])) ∧
    (∀ (now now2 : Nat) (url : String) (s : ImageCacheState),
        requestImage now2 url (requestImage now url s).1 =
          ((requestImage now url s).1, [])) ∧
    (∀ (now now2 : Nat) (url : String) (s : ImageCacheState),
        entryIsLoaded s.cacheEntries url = false → url ∉ s.loadingUrls →
        (requestImage now2 url (requestImage now url s).1).1.loadQueue =
          s.loadQueue ++ [url]) := by
  refine ⟨?_, ?_, ?_⟩
  · intro now url s h
    rcases h with h | h
    · simp [requestImage, h]
    · by_cases hl : entryIsLoaded s.cacheEntries url
      · simp [requestImage, hl]
      · simp [requestImage, hl, h]
  · intro now now2 url s
    by_cases hl : entryIsLoaded s.cacheEntries url
    · simp [requestImage, hl]
    · by_cases hmem : url ∈ s.loadingUrls
      · simp [requestImage, hl, hmem]
      · simp only [requestImage, hl, hmem, if_neg, if_false, Bool.false_eq_true]
        have h2 : entryIsLoaded
            (insertEntry s.cacheEntries url
              { texture := none, size := 0, lastAccess := now, insertTime := now,
                state := .Loading }) url = false := by
          simp [entryIsLoaded, lookupEntry_insertEntry_self]
        simp [h2]
  · intro now now2 url s hl hmem
    simp only [requestImage, hl, hmem, if_neg, if_false, Bool.false_eq_true]
    have h2 : entryIsLoaded
        (insertEntry s.cacheEntries url
          { texture := none, size := 0, lastAccess := now, insertTime := now,
            state := .Loading }) url = false := by
      simp [entryIsLoaded, lookupEntry_insertEntry_self]
    simp [h2]

theorem c3_witness :
    requestImage 3 "u" ((requestImage 0 "u" (imgInit 10)).1) =
      ((requestImage 0 "u" (imgInit 10)).1, []) ∧
    (requestImage 3 "u" ((requestImage 0 "u" (imgInit 10)).1)).1.loadQueue = ["u"] :=
  ⟨c3_requestImage_idempotent.1 3 "u" ((requestImage 0 "u" (imgInit 10)).1)
      (Or.inr (by decide)),
   c3_requestImage_idempotent.2.2 0 3 "u" (imgInit 10) (by decide) (by decide)⟩

/-! ## Claim C8: failed fetch in loadSync -/

/-- The environment of the C8 scenario: no disk file, the transport fetch
returns empty data. -/
def c8env : LoadEnv :=
  { diskHit := false, diskTex := none, dataNonEmpty := false, netTex := none }

/-- C8 counterexample: `loadSync` on a URL with no memory-cache hit, no
disk file and an empty fetch does NOT create a cache entry for the URL.  It
fires the `Failed` callback and returns nothing, but the entry map stays
empty and `getLoadState` still answers `Idle`, not `Failed` — refuting
"creating an entry for u if none exists". -/
theorem c8_counterexample :
    (loadSync 5 "u" c8env (imgInit 1000)).1.cacheEntries = [] ∧
    getLoadState (loadSync 5 "u" c8env (imgInit 1000)).1 "u" = ImageLoadState.Idle ∧
    getLoadState (loadSync 5 "u" c8env (imgInit 1000)).1 "u" ≠ ImageLoadState.Failed ∧
    (loadSync 5 "u" c8env (imgInit 1000)).2.1 = [("u", ImageLoadState.Failed)] ∧
    (loadSync 5 "u" c8env (imgInit 1000)).2.2 = none := by
  decide

theorem markFailed_of_lookup_none {l : List (String × CacheEntry)} {url : String}
    (h : lookupEntry l url = none) : markFailed l url = l := by
  induction l with
  | nil => simp [markFailed]
  | cons p rest ih =>
    simp only [lookupEntry] at h
    simp only [markFailed]
    split
    · rename_i heq
      rw [if_pos heq] at h
      cases h
    · rename_i hne
      rw [if_neg hne] at h
      rw [ih h]

/-- C8 (amended): for a URL with no memory-cache hit, no disk-cache file
and an empty/failed transport fetch, `loadSync` marks the URL's entry
`Failed` only if one already exists (it creates no entry when absent),
fires the `Failed` state callback for the URL, and returns no resource. -/
theorem c8_failed_fetch_marks_existing_only (now : Nat) (url : String)
    (env : LoadEnv) (s : ImageCacheState)
    (hmem : ∀ e, lookupEntry s.cacheEntries url = some e → e.texture = none)
    (hdisk : env.diskHit = false)
    (hclient : s.httpClient = true)
    (hdata : env.dataNonEmpty = false) :
    loadSync now url env s =
      ({ s with cacheEntries := markFailed s.cacheEntries url },
        [(url, ImageLoadState.Failed)], none) ∧
    (lookupEntry s.cacheEntries url = none →
      markFailed s.cacheEntries url = s.cacheEntries) := by
  constructor
  · have hmiss : getCached now url s = (s, none) := by
      cases hlook : lookupEntry s.cacheEntries url with
      | none => simp [getCached, hlook]
      | some e => simp [getCached, hlook, hmem e hlook]
    unfold loadSync
    rw [hmiss]
    simp only [hdisk, Bool.false_eq_true, if_false]
    unfold loadSyncNet
    rw [hclient]
    simp only [Bool.true_eq_false, if_false, hdata, if_true]
  · exact fun h => markFailed_of_lookup_none h

theorem c8_witness :
    loadSync 7 "u" c8env (imgInit 1000) =
      ({ imgInit 1000 with cacheEntries := markFailed (imgInit 1000).cacheEntries "u" },
        [("u", ImageLoadState.Failed)], none) ∧
    (lookupEntry (imgInit 1000).cacheEntries "u" = none →
      markFailed (imgInit 1000).cacheEntries "u" = (imgInit 1000).cacheEntries) :=
  c8_failed_fetch_marks_existing_only 7 "u" c8env (imgInit 1000)
    (fun _e he => nomatch he) rfl rfl rfl

/-! ## Claim C9: resource non-null iff Loaded -/

/-- The C9 invariant on an entry list: a texture handle is present exactly
on `Loaded` entries. -/
def TexInvL (l : List (String × CacheEntry)) : Prop :=
  ∀ p ∈ l, p.2.texture.isSome = true ↔ p.2.state = ImageLoadState.Loaded

/-- The C9 invariant on a cache state. -/
def TexInv (s : ImageCacheState) : Prop := TexInvL s.cacheEntries

theorem TexInvL_touchEntry (now : Nat) (url : String)
    {l : List (String × CacheEntry)} (h : TexInvL l) :
    TexInvL (touchEntry now l url) := by
  induction l with
  | nil => intro p hp; cases hp
  | cons q rest ih =>
    have hq := h q (List.mem_cons_self q rest)
    have hrest : TexInvL rest := fun p hp => h p (List.mem_cons_of_mem q hp)
    intro p hp
    simp only [touchEntry] at hp
    split at hp
    · rcases List.mem_cons.mp hp with rfl | hp
      · exact hq
      · exact h p (List.mem_cons_of_mem q hp)
    · rcases List.mem_cons.mp hp with rfl | hp
      · exact hq
      · exact ih hrest p hp

theorem TexInvL_insertEntry (url : String) (e : CacheEntry)
    {l : List (String × CacheEntry)} (h : TexInvL l)
    (he : e.texture.isSome = true ↔ e.state = ImageLoadState.Loaded) :
    TexInvL (insertEntry l url e) := by
  induction l with
  | nil =>
    intro p hp
    rcases List.mem_cons.mp hp with rfl | hp
    · exact he
    · cases hp
  | cons q rest ih =>
    have hq := h q (List.mem_cons_self q rest)
    have hrest : TexInvL rest := fun p hp => h p (List.mem_cons_of_mem q hp)
    intro p hp
    simp only [insertEntry] at hp
    split at hp
    · rcases List.mem_cons.mp hp with rfl | hp
      · exact he
      · exact h p (List.mem_cons_of_mem q hp)
    · rcases List.mem_cons.mp hp with rfl | hp
      · exact hq
      · exact ih hrest p hp

theorem TexInvL_markFailed (url : String)
    {l : List (String × CacheEntry)} (h : TexInvL l)
    (hP : ∀ e, lookupEntry l url = some e → e.texture = none) :
    TexInvL (markFailed l url) := by
  induction l with
  | nil => intro p hp; cases hp
  | cons q rest ih =>
    have hq := h q (List.mem_cons_self q rest)
    have hrest : TexInvL rest := fun p hp => h p (List.mem_cons_of_mem q hp)
    intro p hp
    simp only [markFailed] at hp
    split at hp
    · rename_i heq
      rcases List.mem_cons.mp hp with rfl | hp
      · have hx : q.2.texture = none := by
          apply hP q.2
          simp only [lookupEntry]
          rw [if_pos heq]
        simp [hx]
      · exact h p (List.mem_cons_of_mem q hp)
    · rename_i hne
      rcases List.mem_cons.mp hp with rfl | hp
      · exact hq
      · refine ih hrest ?_ p hp
        intro e he
        apply hP e
        simp only [lookupEntry]
        rw [if_neg hne]
        exact he

theorem TexInvL_evict (s : ImageCacheState) (h : TexInv s) :
    TexInv (evictIfNeeded s) :=
  fun p hp =>
    h p ((evictGo_sublist s.maxMemoryCacheSize s.cacheEntries.length
      s.currentCacheSize s.cacheEntries).subset hp)

theorem TexInvL_insertLoaded (now : Nat) (url : String) (tex w hh : Nat)
    (s : ImageCacheState) (h : TexInv s) :
    TexInv (insertLoaded now url tex w hh s) := by
  apply TexInvL_evict
  show TexInvL (insertEntry s.cacheEntries url (mkLoadedEntry now tex w hh))
  exact TexInvL_insertEntry url _ h (by simp [mkLoadedEntry])

theorem TexInv_loadSyncNet (now : Nat) (url : String) (env : LoadEnv)
    (s : ImageCacheState) (h : TexInv s)
    (hP : ∀ e, lookupEntry s.cacheEntries url = some e → e.texture = none) :
    TexInv (loadSyncNet now url env s).1 := by
  unfold loadSyncNet
  split
  · exact TexInvL_markFailed url h hP
  · split
    · exact TexInvL_markFailed url h hP
    · cases env.netTex with
      | some t => exact TexInvL_insertLoaded now url t.1 t.2.1 t.2.2 s h
      | none => exact TexInvL_markFailed url h hP

theorem TexInv_loadSync (now : Nat) (url : String) (env : LoadEnv)
    (s : ImageCacheState) (h : TexInv s) :
    TexInv (loadSync now url env s).1 := by
  cases hl : lookupEntry s.cacheEntries url with
  | some e =>
    cases ht : e.texture with
    | some t =>
      have hgc : getCached now url s =
          ({ s with cacheEntries := touchEntry now s.cacheEntries url }, some t) := by
        simp [getCached, hl, ht]
      simp only [loadSync, hgc]
      exact TexInvL_touchEntry now url h
    | none =>
      have hgc : getCached now url s = (s, none) := by
        simp [getCached, hl, ht]
      have hP : ∀ e2, lookupEntry s.cacheEntries url = some e2 → e2.texture = none := by
        intro e2 he2
        rw [hl] at he2
        cases he2
        exact ht
      simp only [loadSync, hgc]
      split
      · cases env.diskTex with
        | some t2 => exact TexInvL_insertLoaded now url t2.1 t2.2.1 t2.2.2 s h
        | none => exact TexInv_loadSyncNet now url env s h hP
      · exact TexInv_loadSyncNet now url env s h hP
  | none =>
    have hgc : getCached now url s = (s, none) := by
      simp [getCached, hl]
    have hP : ∀ e2, lookupEntry s.cacheEntries url = some e2 → e2.texture = none := by
      intro e2 he2
      rw [hl] at he2
      cases he2
    simp only [loadSync, hgc]
    split
    · cases env.diskTex with
      | some t2 => exact TexInvL_insertLoaded now url t2.1 t2.2.1 t2.2.2 s h
      | none => exact TexInv_loadSyncNet now url env s h hP
    · exact TexInv_loadSyncNet now url env s h hP

/-- C9: after every cache operation (`getCached`, `requestImage`,
`loadSync`, `processOne`, eviction, clear), every entry's resource handle
is non-null if and only if its load state is `Loaded`, provided the
invariant held before the operation. -/
theorem c9_texture_iff_loaded (s : ImageCacheState) (op : CacheOp)
    (h : TexInv s) : TexInv (applyCacheOp s op) := by
  cases op with
  | getCachedOp now url =>
    show TexInv (getCached now url s).1
    cases hl : lookupEntry s.cacheEntries url with
    | some e =>
      cases ht : e.texture with
      | some t =>
        have hgc : getCached now url s =
            ({ s with cacheEntries := touchEntry now s.cacheEntries url }, some t) := by
          simp [getCached, hl, ht]
        rw [hgc]
        exact TexInvL_touchEntry now url h
      | none =>
        have hgc : getCached now url s = (s, none) := by
          simp [getCached, hl, ht]
        rw [hgc]
        exact h
    | none =>
      have hgc : getCached now url s = (s, none) := by
        simp [getCached, hl]
      rw [hgc]
      exact h
  | requestImageOp now url =>
    show TexInv (requestImage now url s).1
    unfold requestImage
    split
    · exact h
    · split
      · exact h
      · exact TexInvL_insertEntry url _ h (by simp)
  | loadSyncOp now url env => exact TexInv_loadSync now url env s h
  | processOneOp now env =>
    show TexInv (processOne now env s).1
    unfold processOne
    split
    · exact h
    · rename_i url rest heq
      exact TexInv_loadSync now url env _ h
  | clearOp => intro p hp; cases hp
  | evictOp => exact TexInvL_evict s h

instance (l : List (String × CacheEntry)) : Decidable (TexInvL l) := by
  unfold TexInvL
  infer_instance

instance (s : ImageCacheState) : Decidable (TexInv s) := by
  unfold TexInv
  infer_instance

theorem c9_witness : TexInv (applyCacheOp c1state (CacheOp.getCachedOp 9 "b")) :=
  c9_texture_iff_loaded c1state (CacheOp.getCachedOp 9 "b") (by decide)

/-! ## Lemmas about the download task list -/

theorem countWithStatus_append (st : DownloadStatus) (l1 l2 : List DownloadItem) :
    countWithStatus st (l1 ++ l2) = countWithStatus st l1 + countWithStatus st l2 := by
  induction l1 with
  | nil => simp [countWithStatus]
  | cons x xs ih => simp [countWithStatus, ih]; omega

theorem countWithStatus_eq_zero {st : DownloadStatus} {l : List DownloadItem} :
    countWithStatus st l = 0 ↔ ∀ x ∈ l, x.status ≠ st := by
  induction l with
  | nil => simp [countWithStatus]
  | cons x xs ih =>
    simp only [countWithStatus, List.mem_cons]
    constructor
    · intro h
      have h1 : (if x.status = st then 1 else 0) = 0 ∧ countWithStatus st xs = 0 := by omega
      intro y hy
      rcases hy with rfl | hy
      · intro hc
        rw [if_pos hc] at h1
        omega
      · exact ih.mp h1.2 y hy
    · intro h
      rw [if_neg (h x (Or.inl rfl)), ih.mpr (fun y hy => h y (Or.inr hy))]

/-- Sweeping the `Cancelled` tasks does not change the number of
`Downloading` tasks. -/
theorem countWithStatus_sweep (l : List DownloadItem) :
    countWithStatus .Downloading (sweepCancelled l).1 =
      countWithStatus .Downloading l := by
  induction l with
  | nil => simp [sweepCancelled, countWithStatus]
  | cons x xs ih =>
    simp only [sweepCancelled, countWithStatus]
    split
    · rename_i hc
      rw [if_neg (by rw [hc]; exact fun h => nomatch h)]
      simpa using ih
    · simp [countWithStatus, ih]

theorem mem_sweepCancelled_of_mem {l : List DownloadItem} {x : DownloadItem}
    (hm : x ∈ l) (hst : x.status ≠ .Cancelled) : x ∈ (sweepCancelled l).1 := by
  induction l with
  | nil => cases hm
  | cons y ys ih =>
    simp only [sweepCancelled]
    rcases List.mem_cons.mp hm with rfl | hm
    · rw [if_neg (by simpa using hst)]
      exact List.mem_cons_self _ _
    · split
      · exact ih hm
      · exact List.mem_cons_of_mem _ (ih hm)

theorem mem_of_mem_sweepCancelled {l : List DownloadItem} {x : DownloadItem}
    (hm : x ∈ (sweepCancelled l).1) : x ∈ l ∧ x.status ≠ .Cancelled := by
  induction l with
  | nil => cases hm
  | cons y ys ih =>
    simp only [sweepCancelled] at hm
    split at hm
    · have := ih hm
      exact ⟨List.mem_cons_of_mem _ this.1, this.2⟩
    · rename_i hc
      rcases List.mem_cons.mp hm with rfl | hm
      · exact ⟨List.mem_cons_self _ _, by simpa using hc⟩
      · have := ih hm
        exact ⟨List.mem_cons_of_mem _ this.1, this.2⟩

theorem outputPath_mem_sweepCancelled {l : List DownloadItem} {x : DownloadItem}
    (hm : x ∈ l) (hst : x.status = .Cancelled) :
    x.outputPath ∈ (sweepCancelled l).2 := by
  induction l with
  | nil => cases hm
  | cons y ys ih =>
    simp only [sweepCancelled]
    rcases List.mem_cons.mp hm with rfl | hm
    · rw [if_pos hst]
      exact List.mem_cons_self _ _
    · split
      · exact List.mem_cons_of_mem _ (ih hm)
      · exact ih hm

theorem splitFirstQueued_spec {l : List DownloadItem}
    {pre : List DownloadItem} {q : DownloadItem} {post : List DownloadItem}
    (h : splitFirstQueued l = some (pre, q, post)) :
    l = pre ++ q :: post ∧ q.status = .Queued ∧ ∀ x ∈ pre, x.status ≠ .Queued := by
  induction l generalizing pre with
  | nil => cases h
  | cons x xs ih =>
    simp only [splitFirstQueued] at h
    split at h
    · rename_i hq
      cases h
      exact ⟨rfl, hq, by simp⟩
    · rename_i hq
      cases hs : splitFirstQueued xs with
      | none => rw [hs] at h; cases h
      | some r =>
        rw [hs] at h
        match r, hs, h with
        | (a, q2, b), hs, h =>
          cases h
          have := ih hs
          refine ⟨by rw [this.1]; rfl, this.2.1, ?_⟩
          intro y hy
          rcases List.mem_cons.mp hy with rfl | hy
          · exact hq
          · exact this.2.2 y hy

/-- The task leaves `Downloading` at the end of every transfer: its final
status is `Completed`, `Failed`, `Paused` or `Cancelled`, never
`Downloading`. -/
theorem transferResult_status_ne (q : DownloadItem) (o : TransferOutcome) :
    (transferResult q o).status ≠ .Downloading := by
  cases o with
  | finished ok dl tot =>
    cases ok <;> simp [transferResult, outcomeBytes]
  | midPause ok dl tot => simp [transferResult]
  | midCancel ok dl tot => simp [transferResult]

theorem transferResult_id (q : DownloadItem) (o : TransferOutcome) :
    (transferResult q o).id = q.id := by
  cases o with
  | finished ok dl tot => cases ok <;> simp [transferResult, outcomeBytes]
  | midPause ok dl tot => simp [transferResult]
  | midCancel ok dl tot => simp [transferResult]

/-! ### Equation lemmas for update / startNextDownload -/

theorem startNextDownload_eq_none {s : DownloaderState} {o : TransferOutcome}
    (hs : splitFirstQueued s.downloads = none) :
    startNextDownload s o = (s, []) := by
  unfold startNextDownload
  rw [hs]

theorem startNextDownload_eq_some {s : DownloaderState} {o : TransferOutcome}
    {pre : List DownloadItem} {q : DownloadItem} {post : List DownloadItem}
    (hs : splitFirstQueued s.downloads = some (pre, q, post)) :
    startNextDownload s o =
      ({ s with
          downloads := pre ++ transferResult q o :: post
          currentDownloads := s.currentDownloads + 1 - 1
          cancelRequested := outcomeCancelFlag o },
       [(q.id, outcomeOk o)]) := by
  unfold startNextDownload
  rw [hs]

theorem updateD_nocap {s : DownloaderState} {o : TransferOutcome}
    (hcap : ¬ s.currentDownloads < s.maxConcurrent) :
    updateD s o =
      ({ s with downloads := (sweepCancelled s.downloads).1 }, [],
        (sweepCancelled s.downloads).2) := by
  unfold updateD
  rw [if_neg hcap]

theorem updateD_nostart {s : DownloaderState} {o : TransferOutcome}
    (hcap : s.currentDownloads < s.maxConcurrent)
    (hs : splitFirstQueued (sweepCancelled s.downloads).1 = none) :
    updateD s o =
      ({ s with downloads := (sweepCancelled s.downloads).1 }, [],
        (sweepCancelled s.downloads).2) := by
  unfold updateD
  rw [if_pos hcap, startNextDownload_eq_none hs]

theorem updateD_start {s : DownloaderState} {o : TransferOutcome}
    {pre : List DownloadItem} {q : DownloadItem} {post : List DownloadItem}
    (hcap : s.currentDownloads < s.maxConcurrent)
    (hs : splitFirstQueued (sweepCancelled s.downloads).1 = some (pre, q, post)) :
    updateD s o =
      ({ s with
          downloads := pre ++ transferResult q o :: post
          currentDownloads := s.currentDownloads + 1 - 1
          cancelRequested := outcomeCancelFlag o },
       [(q.id, outcomeOk o)], (sweepCancelled s.downloads).2) := by
  unfold updateD
  rw [if_pos hcap, startNextDownload_eq_some hs]

/-! ## Claim C4: the concurrency bound -/

/-- The resting invariant of the queue between public calls: nothing is in
`Downloading` state (transfers are synchronous, so each call returns with
the started task already in a terminal/paused state), the in-flight counter
is zero and the cap is non-negative. -/
def DInv (s : DownloaderState) : Prop :=
  countWithStatus .Downloading s.downloads = 0 ∧
  s.currentDownloads = 0 ∧ 0 ≤ s.maxConcurrent

instance (s : DownloaderState) : Decidable (DInv s) := by
  unfold DInv
  infer_instance

theorem countWithStatus_cancelById (st : DownloadStatus) (hst : st ≠ .Cancelled)
    (l : List DownloadItem) (id : String) :
    countWithStatus st (cancelById l id).1 ≤ countWithStatus st l := by
  induction l with
  | nil => simp [cancelById]
  | cons x xs ih =>
    simp only [cancelById]
    split
    · simp only [countWithStatus]
      rw [if_neg (fun h => hst h.symm)]
      split <;> omega
    · simp only [countWithStatus]
      omega

theorem countWithStatus_setStatusById (st st2 : DownloadStatus) (hst : st2 ≠ st)
    (l : List DownloadItem) (id : String) :
    countWithStatus st (setStatusById l id st2) ≤ countWithStatus st l := by
  induction l with
  | nil => simp [setStatusById]
  | cons x xs ih =>
    simp only [setStatusById]
    split
    · simp only [countWithStatus]
      rw [if_neg hst]
      split <;> omega
    · simp only [countWithStatus]
      omega

theorem countWithStatus_map_le (st : DownloadStatus) (f : DownloadItem → DownloadItem)
    (hf : ∀ x, (f x).status = st → x.status = st) (l : List DownloadItem) :
    countWithStatus st (l.map f) ≤ countWithStatus st l := by
  induction l with
  | nil => simp [countWithStatus]
  | cons x xs ih =>
    simp only [List.map_cons, countWithStatus]
    by_cases h : (f x).status = st
    · rw [if_pos h, if_pos (hf x h)]
      omega
    · rw [if_neg h]
      split <;> omega

theorem countWithStatus_filter_le (st : DownloadStatus) (p : DownloadItem → Bool)
    (l : List DownloadItem) :
    countWithStatus st (l.filter p) ≤ countWithStatus st l := by
  induction l with
  | nil => simp [countWithStatus]
  | cons x xs ih =>
    simp only [List.filter_cons]
    split
    · simp only [countWithStatus]
      omega
    · simp only [countWithStatus]
      omega

/-- Every public queue operation re-establishes the resting invariant. -/
theorem DInv_applyDlOp (s : DownloaderState) (op : DlOp) (h : DInv s) :
    DInv (applyDlOp s op).1 := by
  obtain ⟨hc, hn, hm⟩ := h
  cases op with
  | add name url filename =>
    refine ⟨?_, hn, hm⟩
    show countWithStatus .Downloading (s.downloads ++
      [{ id := generateId s.nextId, name := name, url := url
         outputPath := s.downloadDir ++ "/" ++
           (if filename = "" then generateId s.nextId ++ ".nro" else filename)
         status := .Queued, totalBytes := 0, downloadedBytes := 0, error := "" }]) = 0
    rw [countWithStatus_append]
    simp [countWithStatus, hc]
  | removeOp id =>
    refine ⟨?_, hn, hm⟩
    show countWithStatus .Downloading (cancelById s.downloads id).1 = 0
    have := countWithStatus_cancelById .Downloading (by simp) s.downloads id
    omega
  | clearOp =>
    refine ⟨?_, hn, hm⟩
    show countWithStatus .Downloading (s.downloads.filter
      (fun it => !(it.status = .Completed || it.status = .Cancelled))) = 0
    have := countWithStatus_filter_le .Downloading
      (fun it => !(it.status = .Completed || it.status = .Cancelled)) s.downloads
    omega
  | pauseOp id =>
    simp only [applyDlOp, pauseD]
    split
    · split
      · refine ⟨?_, hn, hm⟩
        show countWithStatus .Downloading (setStatusById s.downloads id .Paused) = 0
        have := countWithStatus_setStatusById .Downloading .Paused (by simp) s.downloads id
        omega
      · exact ⟨hc, hn, hm⟩
    · exact ⟨hc, hn, hm⟩
  | resumeOp id =>
    simp only [applyDlOp, resumeD]
    split
    · split
      · refine ⟨?_, hn, hm⟩
        show countWithStatus .Downloading (setStatusById s.downloads id .Queued) = 0
        have := countWithStatus_setStatusById .Downloading .Queued (by simp) s.downloads id
        omega
      · exact ⟨hc, hn, hm⟩
    · exact ⟨hc, hn, hm⟩
  | pauseAllOp =>
    refine ⟨?_, hn, hm⟩
    show countWithStatus .Downloading (s.downloads.map
      (fun it =>
        if it.status = .Downloading || it.status = .Queued then
          { it with status := .Paused }
        else it)) = 0
    have := countWithStatus_map_le .Downloading
      (fun it =>
        if it.status = .Downloading || it.status = .Queued then
          { it with status := .Paused }
        else it)
      (by
        intro x hx
        dsimp only at hx
        split at hx
        · simp at hx
        · exact hx)
      s.downloads
    omega
  | resumeAllOp =>
    refine ⟨?_, hn, hm⟩
    show countWithStatus .Downloading (s.downloads.map
      (fun it => if it.status = .Paused then { it with status := .Queued } else it)) = 0
    have := countWithStatus_map_le .Downloading
      (fun it => if it.status = .Paused then { it with status := .Queued } else it)
      (by
        intro x hx
        dsimp only at hx
        split at hx
        · simp at hx
        · exact hx)
      s.downloads
    omega
  | tick o =>
    show DInv (updateD s o).1
    by_cases hcap : s.currentDownloads < s.maxConcurrent
    · cases hs : splitFirstQueued (sweepCancelled s.downloads).1 with
      | none =>
        rw [updateD_nostart hcap hs]
        exact ⟨by rw [countWithStatus_sweep]; exact hc, hn, hm⟩
      | some r =>
        obtain ⟨pre, q, post⟩ := r
        rw [updateD_start hcap hs]
        obtain ⟨hdec, hq, hpre⟩ := splitFirstQueued_spec hs
        refine ⟨?_, by simp [hn], hm⟩
        have h0 : countWithStatus .Downloading (sweepCancelled s.downloads).1 = 0 := by
          rw [countWithStatus_sweep]
          exact hc
        rw [hdec, countWithStatus_append] at h0
        simp only [countWithStatus] at h0
        show countWithStatus .Downloading (pre ++ transferResult q o :: post) = 0
        rw [countWithStatus_append]
        simp only [countWithStatus]
        rw [if_neg (transferResult_status_ne q o)]
        omega
    · rw [updateD_nocap hcap]
      exact ⟨by rw [countWithStatus_sweep]; exact hc, hn, hm⟩

theorem opObservables_tick_nocap {s : DownloaderState} {o : TransferOutcome}
    (hcap : ¬ s.currentDownloads < s.maxConcurrent) :
    opObservables s (.tick o) = [{ s with downloads := (sweepCancelled s.downloads).1 }] := by
  simp only [opObservables]
  rw [if_neg hcap]

theorem opObservables_tick_nostart {s : DownloaderState} {o : TransferOutcome}
    (hcap : s.currentDownloads < s.maxConcurrent)
    (hs : splitFirstQueued (sweepCancelled s.downloads).1 = none) :
    opObservables s (.tick o) = [{ s with downloads := (sweepCancelled s.downloads).1 }] := by
  simp only [opObservables]
  rw [if_pos hcap, hs]

theorem opObservables_tick_start {s : DownloaderState} {o : TransferOutcome}
    {pre : List DownloadItem} {q : DownloadItem} {post : List DownloadItem}
    (hcap : s.currentDownloads < s.maxConcurrent)
    (hs : splitFirstQueued (sweepCancelled s.downloads).1 = some (pre, q, post)) :
    opObservables s (.tick o) =
      [{ s with
          downloads := pre ++ { q with status := DownloadStatus.Downloading } :: post
          currentDownloads := s.currentDownloads + 1
          cancelRequested := false },
       (updateD s o).1] := by
  simp only [opObservables]
  rw [if_pos hcap, hs]

theorem DInv_bound {t : DownloaderState} (h : DInv t) :
    (countWithStatus .Downloading t.downloads : Int) ≤ t.maxConcurrent := by
  obtain ⟨hc, _, hm⟩ := h
  rw [hc]
  simpa using hm

/-- Every state a user callback can observe during one operation satisfies
the concurrency bound. -/
theorem opObservables_bound (s : DownloaderState) (op : DlOp) (h : DInv s) :
    ∀ t ∈ opObservables s op,
      (countWithStatus .Downloading t.downloads : Int) ≤ t.maxConcurrent := by
  intro t ht
  cases op with
  | add name url filename =>
    simp only [opObservables, List.mem_singleton] at ht
    subst ht
    exact DInv_bound (DInv_applyDlOp s (.add name url filename) h)
  | removeOp id =>
    simp only [opObservables, List.mem_singleton] at ht
    subst ht
    exact DInv_bound (DInv_applyDlOp s (.removeOp id) h)
  | clearOp =>
    simp only [opObservables, List.mem_singleton] at ht
    subst ht
    exact DInv_bound (DInv_applyDlOp s .clearOp h)
  | pauseOp id =>
    simp only [opObservables, List.mem_singleton] at ht
    subst ht
    exact DInv_bound (DInv_applyDlOp s (.pauseOp id) h)
  | resumeOp id =>
    simp only [opObservables, List.mem_singleton] at ht
    subst ht
    exact DInv_bound (DInv_applyDlOp s (.resumeOp id) h)
  | pauseAllOp =>
    simp only [opObservables, List.mem_singleton] at ht
    subst ht
    exact DInv_bound (DInv_applyDlOp s .pauseAllOp h)
  | resumeAllOp =>
    simp only [opObservables, List.mem_singleton] at ht
    subst ht
    exact DInv_bound (DInv_applyDlOp s .resumeAllOp h)
  | tick o =>
    by_cases hcap : s.currentDownloads < s.maxConcurrent
    · cases hs : splitFirstQueued (sweepCancelled s.downloads).1 with
      | none =>
        rw [opObservables_tick_nostart hcap hs] at ht
        simp only [List.mem_singleton] at ht
        subst ht
        exact DInv_bound ⟨by rw [countWithStatus_sweep]; exact h.1, h.2.1, h.2.2⟩
      | some r =>
        obtain ⟨pre, q, post⟩ := r
        rw [opObservables_tick_start hcap hs] at ht
        rcases List.mem_cons.mp ht with rfl | ht
        · obtain ⟨hdec, hq, hpre⟩ := splitFirstQueued_spec hs
          have h0 : countWithStatus .Downloading (sweepCancelled s.downloads).1 = 0 := by
            rw [countWithStatus_sweep]
            exact h.1
          rw [hdec, countWithStatus_append] at h0
          simp [countWithStatus, hq] at h0
          have hcount : countWithStatus .Downloading
              (pre ++ { q with status := DownloadStatus.Downloading } :: post) = 1 := by
            rw [countWithStatus_append]
            simp [countWithStatus]
            omega
          show (countWithStatus .Downloading
            (pre ++ { q with status := DownloadStatus.Downloading } :: post) : Int) ≤
              s.maxConcurrent
          rw [hcount]
          have hn := h.2.1
          omega
        · simp only [List.mem_singleton] at ht
          subst ht
          exact DInv_bound (DInv_applyDlOp s (.tick o) h)
    · rw [opObservables_tick_nocap hcap] at ht
      simp only [List.mem_singleton] at ht
      subst ht
      exact DInv_bound ⟨by rw [countWithStatus_sweep]; exact h.1, h.2.1, h.2.2⟩

/-- C4: over every sequence of enqueue, control and tick operations from a
state satisfying the resting invariant, the number of tasks in
`Downloading` state never exceeds `maxConcurrent` at any observable point
(the states seen by progress callbacks during a transfer and the states
after each operation). -/
theorem c4_downloading_bounded (s : DownloaderState) (hs : DInv s) (ops : List DlOp) :
    ∀ t ∈ runObservables s ops,
      (countWithStatus .Downloading t.downloads : Int) ≤ t.maxConcurrent := by
  induction ops generalizing s with
  | nil => intro t ht; cases ht
  | cons op rest ih =>
    intro t ht
    simp only [runObservables] at ht
    rcases List.mem_append.mp ht with ht | ht
    · exact opObservables_bound s op hs t ht
    · exact ih (applyDlOp s op).1 (DInv_applyDlOp s op hs) t ht

/-- The run used to witness C4: two enqueues, a successful tick, bulk
pause/resume, then a failing tick. -/
def c4ops : List DlOp :=
  [.add "x" "ux" "", .add "y" "uy" "", .tick (.finished true 0 60),
   .pauseAllOp, .resumeAllOp, .tick (.finished false 0 0)]

theorem c4_witness :
    (countWithStatus DownloadStatus.Downloading (runD (dlInit "d") c4ops).downloads : Int) ≤
      (runD (dlInit "d") c4ops).maxConcurrent :=
  c4_downloading_bounded (dlInit "d") (by decide) c4ops (runD (dlInit "d") c4ops)
    (by decide)

/-! ## Claim C5: one start per tick, FIFO -/

/-- The C5 run: enqueue `x` then `y` with `maxConcurrent = 1` and tick
once, the transfer succeeding. -/
def c5ops : List DlOp :=
  [.add "x" "urlX" "", .add "y" "urlY" "", .tick (.finished true 0 100)]

/-- C5 counterexample to the "while" reading: after the tick the queue
still has spare capacity (`currentDownloads < maxConcurrent`) and `y` is
still `Queued` — a while-loop that starts transfers while below the cap
would have started (and, transfers being synchronous, finished) `y` in the
same tick.  Only `x` was started. -/
theorem c5_counterexample :
    (runD (dlInit "dl") c5ops).currentDownloads <
      (runD (dlInit "dl") c5ops).maxConcurrent ∧
    countWithStatus .Queued (runD (dlInit "dl") c5ops).downloads = 1 ∧
    runEvents (dlInit "dl") c5ops = [("dl_1", true)] ∧
    (runD (dlInit "dl") c5ops).downloads.map (fun it => (it.id, it.status)) =
      [("dl_1", DownloadStatus.Completed), ("dl_2", DownloadStatus.Queued)] := by
  decide

/-- C5 (amended): each tick starts at most one transfer — if the count of
`Downloading` tasks is below `maxConcurrent` it picks the first `Queued`
task in insertion order, runs it to a non-`Queued` resting state, and
leaves every other task in place; the `x`/`y` scenario needs one tick per
task. -/
theorem c5_tick_starts_at_most_one :
    (∀ (s : DownloaderState) (o : TransferOutcome), ((updateD s o).2.1).length ≤ 1) ∧
    (∀ (s : DownloaderState) (o : TransferOutcome)
        (pre : List DownloadItem) (q : DownloadItem) (post : List DownloadItem),
        splitFirstQueued (sweepCancelled s.downloads).1 = some (pre, q, post) →
        s.currentDownloads < s.maxConcurrent →
        (updateD s o).1.downloads = pre ++ transferResult q o :: post ∧
        q.status = DownloadStatus.Queued ∧
        ∀ x ∈ pre, x.status ≠ DownloadStatus.Queued) ∧
    ((runD (dlInit "dl") (c5ops ++ [DlOp.tick (.finished true 0 50)])).downloads.map
        (fun it => (it.id, it.status)) =
      [("dl_1", DownloadStatus.Completed), ("dl_2", DownloadStatus.Completed)]) := by
  refine ⟨?_, ?_, by decide⟩
  · intro s o
    by_cases hcap : s.currentDownloads < s.maxConcurrent
    · cases hs : splitFirstQueued (sweepCancelled s.downloads).1 with
      | none => rw [updateD_nostart hcap hs]; simp
      | some r =>
        obtain ⟨pre, q, post⟩ := r
        rw [updateD_start hcap hs]
        simp
    · rw [updateD_nocap hcap]
      simp
  · intro s o pre q post hs hcap
    obtain ⟨hdec, hq, hpre⟩ := splitFirstQueued_spec hs
    rw [updateD_start hcap hs]
    exact ⟨rfl, hq, hpre⟩

/-- The single queued task of the C5 witness state. -/
def c5wq : DownloadItem :=
  { id := "dl_1", name := "x", url := "u", outputPath := "w5/dl_1.nro",
    status := .Queued, totalBytes := 0, downloadedBytes := 0, error := "" }

theorem c5_witness :
    (updateD (runD (dlInit "w5") [DlOp.add "x" "u" ""]) (.finished true 3 9)).1.downloads =
      [] ++ transferResult c5wq (.finished true 3 9) :: [] ∧
    c5wq.status = DownloadStatus.Queued :=
  ⟨(c5_tick_starts_at_most_one.2.1 (runD (dlInit "w5") [DlOp.add "x" "u" ""])
      (.finished true 3 9) [] c5wq [] (by decide) (by decide)).1,
   (c5_tick_starts_at_most_one.2.1 (runD (dlInit "w5") [DlOp.add "x" "u" ""])
      (.finished true 3 9) [] c5wq [] (by decide) (by decide)).2.1⟩

/-! ## Claim C6: completion callback firings -/

/-- The C6 run: enqueue `x`; during the first tick's transfer the user
pauses it from the progress callback (the transport then reports failure);
resume; tick again, now succeeding. -/
def c6ops : List DlOp :=
  [.add "x" "urlX" "", .tick (.midPause false 50 100), .resumeOp "dl_1",
   .tick (.finished true 100 100)]

/-- C6 counterexample: the completion callback fires twice for one task
over a pause/resume sequence — once when the task leaves `Downloading` for
`Paused` and once more when the restarted transfer completes — refuting
"exactly once per task". -/
theorem c6_counterexample :
    runEvents (dlInit "dl") c6ops = [("dl_1", false), ("dl_1", true)] ∧
    ((runEvents (dlInit "dl") c6ops).filter (fun e => e.1 == "dl_1")).length = 2 ∧
    (runD (dlInit "dl") c6ops).downloads.map (fun it => (it.id, it.status)) =
      [("dl_1", DownloadStatus.Completed)] := by
  decide

/-- C6 (amended): the completion callback fires exactly once per transfer
attempt: a tick that starts a task fires it exactly once, for that task,
with `(task, success)`, at the point the task leaves `Downloading`; a tick
that starts nothing fires nothing.  A task paused mid-transfer and resumed
incurs one firing per attempt. -/
theorem c6_completion_once_per_attempt :
    (∀ (s : DownloaderState) (o : TransferOutcome)
        (pre : List DownloadItem) (q : DownloadItem) (post : List DownloadItem),
        splitFirstQueued (sweepCancelled s.downloads).1 = some (pre, q, post) →
        s.currentDownloads < s.maxConcurrent →
        (updateD s o).2.1 = [(q.id, outcomeOk o)] ∧
        (transferResult q o).status ≠ DownloadStatus.Downloading ∧
        (updateD s o).1.downloads = pre ++ transferResult q o :: post) ∧
    (∀ (s : DownloaderState) (o : TransferOutcome),
        splitFirstQueued (sweepCancelled s.downloads).1 = none →
        (updateD s o).2.1 = []) ∧
    (∀ (s : DownloaderState) (o : TransferOutcome),
        ¬ s.currentDownloads < s.maxConcurrent → (updateD s o).2.1 = []) := by
  refine ⟨?_, ?_, ?_⟩
  · intro s o pre q post hs hcap
    rw [updateD_start hcap hs]
    exact ⟨rfl, transferResult_status_ne q o, rfl⟩
  · intro s o hs
    by_cases hcap : s.currentDownloads < s.maxConcurrent
    · rw [updateD_nostart hcap hs]
    · rw [updateD_nocap hcap]
  · intro s o hcap
    rw [updateD_nocap hcap]

/-- The single queued task of the C6 witness state. -/
def c6wq : DownloadItem :=
  { id := "dl_1", name := "a", url := "u", outputPath := "w6/dl_1.nro",
    status := .Queued, totalBytes := 0, downloadedBytes := 0, error := "" }

theorem c6_witness :
    (updateD (runD (dlInit "w6") [DlOp.add "a" "u" ""]) (.midPause false 1 2)).2.1 =
      [(c6wq.id, outcomeOk (.midPause false 1 2))] ∧
    (transferResult c6wq (.midPause false 1 2)).status ≠ DownloadStatus.Downloading :=
  ⟨(c6_completion_once_per_attempt.1 (runD (dlInit "w6") [DlOp.add "a" "u" ""])
      (.midPause false 1 2) [] c6wq [] (by decide) (by decide)).1,
   (c6_completion_once_per_attempt.1 (runD (dlInit "w6") [DlOp.add "a" "u" ""])
      (.midPause false 1 2) [] c6wq [] (by decide) (by decide)).2.1⟩

/-! ## Claim C7: failure semantics -/

/-- Membership decomposition of a tick's resulting task list: every task
after `update` either survived the sweep untouched or is the transferred
first-queued task. -/
theorem mem_updateD_downloads {s : DownloaderState} {o : TransferOutcome}
    {x : DownloadItem} (hx : x ∈ (updateD s o).1.downloads) :
    x ∈ (sweepCancelled s.downloads).1 ∨
    ∃ q, q ∈ (sweepCancelled s.downloads).1 ∧ q.status = DownloadStatus.Queued ∧
      x = transferResult q o := by
  by_cases hcap : s.currentDownloads < s.maxConcurrent
  · cases hs : splitFirstQueued (sweepCancelled s.downloads).1 with
    | none =>
      rw [updateD_nostart hcap hs] at hx
      exact Or.inl hx
    | some r =>
      obtain ⟨pre, q, post⟩ := r
      obtain ⟨hdec, hq, hpre⟩ := splitFirstQueued_spec hs
      rw [updateD_start hcap hs] at hx
      simp only [List.mem_append, List.mem_cons] at hx
      rcases hx with hx | hx | hx
      · exact Or.inl (by rw [hdec]; exact List.mem_append_left _ hx)
      · refine Or.inr ⟨q, ?_, hq, hx⟩
        rw [hdec]
        exact List.mem_append_right _ (List.mem_cons_self _ _)
      · exact Or.inl (by
          rw [hdec]
          exact List.mem_append_right _ (List.mem_cons_of_mem _ hx))
  · rw [updateD_nocap hcap] at hx
    exact Or.inl hx

/-- C7: a transfer that fails (with no mid-transfer cancel or pause) leaves
the task `Failed` with `lastError` set to the generic message — the
transport interface used returns only a boolean, i.e. an empty message —
and a `Failed` task is never touched by a subsequent tick: it survives
every `update` unchanged (in particular it is never returned to `Queued` or
`Downloading`). -/
theorem c7_failure_semantics :
    (∀ (q : DownloadItem) (dl tot : Nat),
        (transferResult q (.finished false dl tot)).status = DownloadStatus.Failed ∧
        (transferResult q (.finished false dl tot)).error = "Download failed") ∧
    (∀ (s : DownloaderState) (o : TransferOutcome) (it : DownloadItem),
        it ∈ s.downloads → it.status = DownloadStatus.Failed →
        it ∈ (updateD s o).1.downloads) := by
  constructor
  · intro q dl tot
    exact ⟨rfl, rfl⟩
  · intro s o it hm hst
    have hsw : it ∈ (sweepCancelled s.downloads).1 :=
      mem_sweepCancelled_of_mem hm (by rw [hst]; exact fun h => nomatch h)
    by_cases hcap : s.currentDownloads < s.maxConcurrent
    · cases hs : splitFirstQueued (sweepCancelled s.downloads).1 with
      | none =>
        rw [updateD_nostart hcap hs]
        exact hsw
      | some r =>
        obtain ⟨pre, q, post⟩ := r
        obtain ⟨hdec, hq, hpre⟩ := splitFirstQueued_spec hs
        rw [updateD_start hcap hs]
        rw [hdec] at hsw
        simp only [List.mem_append, List.mem_cons] at hsw ⊢
        rcases hsw with hsw | hsw | hsw
        · exact Or.inl hsw
        · exfalso
          rw [hsw, hq] at hst
          exact nomatch hst
        · exact Or.inr (Or.inr hsw)
    · rw [updateD_nocap hcap]
      exact hsw

/-- The `Failed` task of the C7 witness state (after one failing tick). -/
def c7wit : DownloadItem :=
  { id := "dl_1", name := "x", url := "u", outputPath := "w7/dl_1.nro",
    status := .Failed, totalBytes := 0, downloadedBytes := 0,
    error := "Download failed" }

theorem c7_witness :
    c7wit ∈ (updateD (runD (dlInit "w7")
      [DlOp.add "x" "u" "", DlOp.tick (.finished false 0 0)])
      (.finished true 0 0)).1.downloads :=
  c7_failure_semantics.2
    (runD (dlInit "w7") [DlOp.add "x" "u" "", DlOp.tick (.finished false 0 0)])
    (.finished true 0 0) c7wit (by decide) (by decide)

/-! ## Claim C10: removing a task deletes its file on the next tick -/

/-- Task ids are pairwise distinct (they come from the `m_nextId`
counter). -/
def idsNodup (l : List DownloadItem) : Prop :=
  (l.map (fun it => it.id)).Nodup

instance (l : List DownloadItem) : Decidable (idsNodup l) := by
  unfold idsNodup
  infer_instance

theorem getDownload_cancelById {l : List DownloadItem} {id : String}
    {it : DownloadItem} (hf : getDownload l id = some it) :
    getDownload (cancelById l id).1 id =
      some { it with status := DownloadStatus.Cancelled } := by
  induction l with
  | nil => cases hf
  | cons y ys ih =>
    simp only [getDownload] at hf
    simp only [cancelById]
    split
    · rename_i hy
      rw [if_pos hy] at hf
      cases hf
      simp only [getDownload]
      rw [if_pos hy]
    · rename_i hy
      rw [if_neg hy] at hf
      simp only [getDownload]
      rw [if_neg hy]
      exact ih hf

theorem mem_cancelById {l : List DownloadItem} {id : String}
    {it : DownloadItem} (hf : getDownload l id = some it) :
    { it with status := DownloadStatus.Cancelled } ∈ (cancelById l id).1 := by
  induction l with
  | nil => cases hf
  | cons y ys ih =>
    simp only [getDownload] at hf
    simp only [cancelById]
    split
    · rename_i hy
      rw [if_pos hy] at hf
      cases hf
      exact List.mem_cons_self _ _
    · rename_i hy
      rw [if_neg hy] at hf
      exact List.mem_cons_of_mem _ (ih hf)

/-- With distinct ids, the only task with the removed id left in the list
after `removeDownload`'s marking pass is the freshly `Cancelled` one. -/
theorem cancelById_id_match {l : List DownloadItem} {id : String}
    {it : DownloadItem} (hn : idsNodup l) (hf : getDownload l id = some it) :
    ∀ x ∈ (cancelById l id).1, x.id = id →
      x = { it with status := DownloadStatus.Cancelled } := by
  induction l with
  | nil => cases hf
  | cons y ys ih =>
    have hy1 : y.id ∉ ys.map (fun x => x.id) := (List.nodup_cons.mp hn).1
    have hy2 : idsNodup ys := (List.nodup_cons.mp hn).2
    simp only [getDownload] at hf
    simp only [cancelById]
    split
    · rename_i hy
      rw [if_pos hy] at hf
      cases hf
      intro x hx hxid
      rcases List.mem_cons.mp hx with rfl | hx
      · rfl
      · exfalso
        apply hy1
        rw [hy, ← hxid]
        exact List.mem_map_of_mem _ hx
    · rename_i hy
      rw [if_neg hy] at hf
      intro x hx hxid
      rcases List.mem_cons.mp hx with rfl | hx
      · exact absurd hxid hy
      · exact ih hy2 hf x hx hxid

theorem getDownload_eq_none {l : List DownloadItem} {id : String}
    (h : ∀ x ∈ l, x.id ≠ id) : getDownload l id = none := by
  induction l with
  | nil => rfl
  | cons y ys ih =>
    simp only [getDownload]
    rw [if_neg (h y (List.mem_cons_self y ys))]
    exact ih (fun x hx => h x (List.mem_cons_of_mem _ hx))

/-- The paths a tick deletes are exactly the swept `Cancelled` tasks'
output paths. -/
theorem updateD_deleted (s : DownloaderState) (o : TransferOutcome) :
    (updateD s o).2.2 = (sweepCancelled s.downloads).2 := by
  by_cases hcap : s.currentDownloads < s.maxConcurrent
  · cases hs : splitFirstQueued (sweepCancelled s.downloads).1 with
    | none => rw [updateD_nostart hcap hs]
    | some r =>
      obtain ⟨pre, q, post⟩ := r
      rw [updateD_start hcap hs]
  · rw [updateD_nocap hcap]

/-- C10: for a task in any state other than `Downloading` — including
`Completed` — `removeDownload(id)` marks it `Cancelled`, and the next
`update()` removes it from the list and deletes the file at its output
path; so removing a `Completed` task deletes its fully downloaded file. -/
theorem c10_remove_completed_deletes_file (s : DownloaderState) (id : String)
    (it : DownloadItem) (o : TransferOutcome)
    (hn : idsNodup s.downloads)
    (hf : getDownload s.downloads id = some it)
    (_hst : it.status ≠ DownloadStatus.Downloading) :
    getDownload (removeDownload s id).downloads id =
      some { it with status := DownloadStatus.Cancelled } ∧
    getDownload (updateD (removeDownload s id) o).1.downloads id = none ∧
    it.outputPath ∈ (updateD (removeDownload s id) o).2.2 := by
  refine ⟨getDownload_cancelById hf, ?_, ?_⟩
  · apply getDownload_eq_none
    intro x hx hxid
    rcases mem_updateD_downloads hx with hx2 | ⟨q, hq1, hq2, hq3⟩
    · obtain ⟨hx3, hx4⟩ := mem_of_mem_sweepCancelled hx2
      have hmatch := cancelById_id_match hn hf x hx3 hxid
      rw [hmatch] at hx4
      exact hx4 rfl
    · obtain ⟨hq5, hq6⟩ := mem_of_mem_sweepCancelled hq1
      have hqid : q.id = id := by
        rw [← transferResult_id q o, ← hq3]
        exact hxid
      have hmatch := cancelById_id_match hn hf q hq5 hqid
      rw [hmatch] at hq2
      exact nomatch hq2
  · rw [updateD_deleted]
    exact @outputPath_mem_sweepCancelled (removeDownload s id).downloads
      { it with status := DownloadStatus.Cancelled } (mem_cancelById hf) rfl

/-- The C10 witness state: one enqueued task run to `Completed` by a
successful tick. -/
def c10state : DownloaderState :=
  runD (dlInit "w10") [DlOp.add "x" "u" "", DlOp.tick (.finished true 5 5)]

/-- The `Completed` task of `c10state`. -/
def c10item : DownloadItem :=
  { id := "dl_1", name := "x", url := "u", outputPath := "w10/dl_1.nro",
    status := .Completed, totalBytes := 5, downloadedBytes := 5, error := "" }

theorem c10_witness :
    getDownload (removeDownload c10state "dl_1").downloads "dl_1" =
      some { c10item with status := DownloadStatus.Cancelled } ∧
    getDownload (updateD (removeDownload c10state "dl_1")
      (.finished true 0 0)).1.downloads "dl_1" = none ∧
    c10item.outputPath ∈ (updateD (removeDownload c10state "dl_1")
      (.finished true 0 0)).2.2 :=
  c10_remove_completed_deletes_file c10state "dl_1" c10item (.finished true 0 0)
    (by decide) (by decide) (by decide)
